import Mathlib

/-!
Verification of the vert-tagextract extraction engine against its
natural-language specification.  The definitions below are shallow
embeddings of the Go sources: structure accumulators (proc/attrStack),
the aligned-column generators (db/colgen/functions.go), configuration
validation (cnf/config.go), the word dictionary and n-gram counter
(ptcount), the two-pass ARF calculator (ptcount/arf.go) and the
extractor driver (proc/inserting.go).  Go maps are modelled as
association lists, machine integers as Int/Nat, fallible code returns
explicit result types, and a nil-pointer dereference is modelled as an
explicit panic result.
-/

set_option maxRecDepth 4000

/-- A structure (SGML-like) opening event as delivered by the vertigo
parser: name, attribute mapping and the empty-element flag. -/
structure VStructure where
  name : String
  attrs : List (String × String)
  isEmpty : Bool
deriving Repr, DecidableEq

/-- Accumulator item: the original structure event plus the line number
at which it was opened (proc/attrStack.go, type AccumItem). -/
structure AccumItem where
  elm : VStructure
  lineOpen : Int
deriving Repr, DecidableEq

/-- Structured model of the accumulator error values built via
fmt.Errorf in proc/attrStack.go; each constructor carries exactly the
data interpolated into the corresponding message. -/
inductive AccumError where
  | nestedMismatch (encountered : String) (stackTop : String)
  | selfRecursion (name : String)
  | missingOpen (name : String)
deriving Repr, DecidableEq

/-- Result of an accumulator end operation.  The panic constructor
models a Go nil-pointer dereference (runtime crash). -/
inductive EndResult where
  | ok (item : AccumItem)
  | err (e : AccumError)
  | panic
deriving Repr, DecidableEq

/-- The strict accumulator state: the singly-linked stack of
structStack modelled as a list with the stack top first. -/
def StructStack := List AccumItem

/-- structStack.begin: push the structure with its opening line; never
fails (returns no error, matching the Go method returning nil). -/
def structStackBegin (s : List AccumItem) (line : Int) (item : VStructure) :
    Option AccumError × List AccumItem :=
  (none, ⟨item, line⟩ :: s)

/-- structStack.end: on an empty stack the Go code dereferences the nil
lastItem pointer (panic); otherwise it compares the top-of-stack name
and either fails without popping or pops and returns the item. -/
def structStackEnd (s : List AccumItem) (name : String) :
    EndResult × List AccumItem :=
  match s with
  | [] => (.panic, s)
  | top :: rest =>
    if top.elm.name ≠ name then
      (.err (.nestedMismatch name top.elm.name), s)
    else
      (.ok top, rest)

/-- Association-list lookup (model of Go map access). -/
def alookup {α β : Type} [DecidableEq α] (l : List (α × β)) (k : α) : Option β :=
  match l with
  | [] => none
  | (k2, v) :: rest => if k2 = k then some v else alookup rest k

/-- Association-list removal of a key (model of Go map delete). -/
def aremove {α β : Type} [DecidableEq α] (l : List (α × β)) (k : α) :
    List (α × β) :=
  match l with
  | [] => []
  | (k2, v) :: rest => if k2 = k then aremove rest k else (k2, v) :: aremove rest k

/-- Association-list update-or-append (model of Go map assignment). -/
def aupsert {α β : Type} [DecidableEq α] (l : List (α × β)) (k : α) (v : β) :
    List (α × β) :=
  match l with
  | [] => [(k, v)]
  | (k2, v2) :: rest =>
    if k2 = k then (k2, v) :: rest else (k2, v2) :: aupsert rest k v

/-- The set (non-strict) accumulator state: defaultAccum.elms, a map
from structure name to the currently open element of that name. -/
def DefaultAccum := List (String × AccumItem)

/-- defaultAccum.begin: fails with the self-recursion error when the
name is already present, otherwise stores the item under its name. -/
def defaultAccumBegin (sa : List (String × AccumItem)) (line : Int)
    (v : VStructure) : Option AccumError × List (String × AccumItem) :=
  match alookup sa v.name with
  | some _ => (some (.selfRecursion v.name), sa)
  | none => (none, sa ++ [(v.name, ⟨v, line⟩)])

/-- defaultAccum.end: removes and returns the entry when present,
otherwise fails with the missing-open error. -/
def defaultAccumEnd (sa : List (String × AccumItem)) (name : String) :
    EndResult × List (String × AccumItem) :=
  match alookup sa name with
  | some tmp => (.ok tmp, aremove sa name)
  | none => (.err (.missingOpen name), sa)

/-- Dynamic value of a Go map[string]interface{} entry as used for
accumulated atom attributes: strings and ints occur (design note §9). -/
inductive GoVal where
  | str (s : String)
  | int (n : Int)
deriving Repr, DecidableEq

/-- Result of a column-generator call; the panic constructor models an
out-of-range slice index at runtime. -/
inductive ColgenResult where
  | ok (s : String)
  | err (msg : String)
  | panic
deriving Repr, DecidableEq

/-- db/colgen fetchStringVals: extracts string values for the given
attribute keys; a missing or non-string value yields an error together
with the empty slice (the Go function returns []string{} then). -/
def fetchStringVals (attrs : List (String × GoVal)) (useAttrs : List String) :
    Option (List String) :=
  match useAttrs with
  | [] => some []
  | a :: rest =>
    match alookup attrs a with
    | some (.str s) =>
      match fetchStringVals attrs rest with
      | some vs => some (s :: vs)
      | none => none
    | _ => none

/-- db/colgen intercorp: vals, err := fetchStringVals(...); return
vals[0][2:], err.  When fetchStringVals failed the returned slice is
empty and the index expression panics; likewise the slice expression
panics when the value is shorter than two bytes. -/
def intercorp (attrs : List (String × GoVal)) (useAttrs : List String) :
    ColgenResult :=
  match fetchStringVals attrs useAttrs with
  | none => .panic
  | some [] => .panic
  | some (v :: _) =>
    if v.length < 2 then .panic else .ok (v.drop 2)

/-- db/colgen identity: the underscore-join of the fetched values, or
an error when fetching failed. -/
def identityGen (attrs : List (String × GoVal)) (useAttrs : List String) :
    ColgenResult :=
  match fetchStringVals attrs useAttrs with
  | none => .err "Column generator function cannot accept non-string values"
  | some vals => .ok (String.intercalate "_" vals)

/-- db/colgen empty: returns the empty string unconditionally. -/
def emptyGen (_ : List (String × GoVal)) (_ : List String) : ColgenResult :=
  .ok ""

/-- The subset of VTEConf (cnf/config.go) inspected by Validate. -/
structure VTEConfV where
  verticalFile : String
  verticalFiles : List String
  removeEntriesBeforeDate : Option String
  dateAttr : Option String
deriving Repr, DecidableEq

/-- cnf/config.go VTEConf.Validate: rejects simultaneous verticalFile
and verticalFiles, and a moving data window without a date attribute;
returns the error message, or none on success. -/
def VTEConfV.Validate (c : VTEConfV) : Option String :=
  if c.verticalFile ≠ "" ∧ c.verticalFiles.length > 0 then
    some "cannot use verticalFile and verticalFiles at the same time"
  else if c.removeEntriesBeforeDate.isSome ∧ c.dateAttr.isNone then
    some "moving data window defined via *removeEntriesBeforeDate*, but no *dateAttr* found"
  else
    none

/-- ptcount WordDict: a bidirectional word/integer mapping; the two Go
maps are modelled as association lists and the running counter kept as
a natural number (ids handed out are counter values, starting at 1). -/
structure WordDict where
  counter : Nat
  data : List (String × Nat)
  dataRev : List (Nat × String)
deriving Repr, DecidableEq

/-- ptcount NewWordDict: empty dictionary, counter at zero. -/
def NewWordDict : WordDict := ⟨0, [], []⟩

/-- WordDict.Add: returns the existing id when the word is present,
otherwise increments the counter and records the word in both maps,
returning the fresh id.  The returned id is paired with the new state
(the Go method mutates the receiver). -/
def WordDict.Add (w : WordDict) (word : String) : Nat × WordDict :=
  match alookup w.data word with
  | some v => (v, w)
  | none =>
    let c := w.counter + 1
    (c, ⟨c, aupsert w.data word c, aupsert w.dataRev c word⟩)

/-- WordDict.Get: reverse lookup; a missing id gives the Go map zero
value, the empty string. -/
def WordDict.Get (w : WordDict) (idx : Nat) : String :=
  (alookup w.dataRev idx).getD ""

/-- Runs a sequence of Add calls from a given dictionary state. -/
def WordDict.addMany (w : WordDict) (ws : List String) : WordDict :=
  match ws with
  | [] => w
  | s :: rest => ((w.Add s).2).addMany rest

/-- ptcount/arf.go WordARF: the ARF accumulator attached to an n-gram
entry.  The float64 accumulator is modelled as a rational; all the
operations performed on it in this development are exact in float64 as
well. -/
structure WordARF where
  arf : Rat
  firstIdx : Int
  prevTokIdx : Int
deriving Repr, DecidableEq

/-- ptcount/arf.go min: compares the average distance (float) with an
actual distance (int) and returns the smaller as a float. -/
def arfMin (v1 : Rat) (v2 : Int) : Rat :=
  if v1 < (v2 : Rat) then v1 else (v2 : Rat)

/-- Go math.Round: round to nearest integer, halves away from zero. -/
def goRound (q : Rat) : Int :=
  if q < 0 then -(⌊-q + 1/2⌋) else ⌊q + 1/2⌋

/-- The ARF-update step of ARFCalculator.ProcToken performed when a
reconstructed n-gram matches an entry of the counts map (arf.go lines
118-124): create the helper on first match with the previous-index
sentinel -1, add the capped distance unless the sentinel is still
present, and remember the current token index. -/
def arfMatchStep (numTokens : Int) (count : Nat) (arf0 : Option WordARF)
    (tkIdx : Int) : WordARF :=
  let a : WordARF := match arf0 with
    | none => { arf := 0, firstIdx := tkIdx, prevTokIdx := -1 }
    | some a => a
  let a := if a.prevTokIdx > -1 then
      { a with arf := a.arf + arfMin ((numTokens : Rat) / (count : Rat)) (tkIdx - a.prevTokIdx) }
    else a
  { a with prevTokIdx := tkIdx }

/-- ARFCalculator.Finalize for one entry: add the wrap-around term and
divide by the average distance, rounding to three decimal places. -/
def arfFinalizeEntry (numTokens : Int) (count : Nat) (a : WordARF) : WordARF :=
  let avgDist : Rat := (numTokens : Rat) / (count : Rat)
  let a1 := a.arf + arfMin avgDist (a.firstIdx + numTokens - a.prevTokIdx)
  { a with arf := (goRound (a1 / avgDist * 1000) : Rat) / 1000 }

/-- Decimal digits, fuel-based so that concrete keys evaluate by
kernel reduction; the fuel is always sufficient at natDigits below. -/
def natDigitsF : Nat → Nat → List Nat
  | 0, _ => []
  | fuel + 1, n => if n < 10 then [n] else natDigitsF fuel (n / 10) ++ [n % 10]

/-- Decimal digits of a natural number, most significant first
(the standard decimal expansion used by fmt.Sprint / strconv). -/
def natDigits (n : Nat) : List Nat :=
  natDigitsF (n + 1) n

/-- Decimal string of a natural number. -/
def natRepr (n : Nat) : String :=
  ⟨(natDigits n).map Nat.digitChar⟩

/-- Decimal string of an integer, a leading minus sign for negative
values: the embedding of fmt.Sprint on a Go int. -/
def intRepr (z : Int) : String :=
  if z < 0 then "-" ++ natRepr z.natAbs else natRepr z.natAbs

/-- Go strings.Join: concatenation of the elements with the separator
between consecutive elements. -/
def goJoin (sep : String) (l : List String) : String :=
  match l with
  | [] => ""
  | [x] => x
  | x :: xs => x ++ sep ++ goJoin sep xs

/-- ptcount/colCounter.go NgramCounter: an n-gram entry holding the
occurrence count, the per-position vectors of dictionary ids and the
optional ARF helper.  Position.Columns is a Go []int indexed by the
configured column index. -/
structure NgramCounter where
  count : Nat
  tokens : List (List Int)
  arf : Option WordARF
deriving Repr, DecidableEq

/-- NgramCounter.columnNgramNumeric: the space-joined decimal ids of
one configured column across the n-gram positions.  An out-of-range
column index is read as 0 (the theorems below constrain indices to the
vector width, matching the panic-free executions of the Go code). -/
def NgramCounter.columnNgramNumeric (c : NgramCounter) (colIdx : Nat) : String :=
  goJoin " " (c.tokens.map fun v => intRepr (v.getD colIdx 0))

/-- NgramCounter.UniqueID: the space-joined per-column numeric n-grams
over the configured column list. -/
def NgramCounter.UniqueID (c : NgramCounter) (columns : List Nat) : String :=
  goJoin " " (columns.map c.columnNgramNumeric)

/-- NgramCounter.IncCount. -/
def NgramCounter.IncCount (c : NgramCounter) : NgramCounter :=
  { c with count := c.count + 1 }

/-- NgramCounter.AddToken: append one position vector. -/
def NgramCounter.AddToken (c : NgramCounter) (pos : List Int) : NgramCounter :=
  { c with tokens := c.tokens ++ [pos] }

/-- NewNgramCounter: a fresh entry with count 1 and no positions. -/
def NewNgramCounter : NgramCounter :=
  { count := 1, tokens := [], arf := none }

/-- The accumulator chosen by configuration: the strict stack variant
or the set variant (proc/inserting.go NewTTExtractor). -/
inductive Accum where
  | stack (items : List AccumItem)
  | set (elms : List (String × AccumItem))
deriving Repr, DecidableEq

/-- Dispatch of AttrAccumulator.begin. -/
def Accum.beginA (ac : Accum) (line : Int) (v : VStructure) :
    Option AccumError × Accum :=
  match ac with
  | .stack items =>
    let (e, s) := structStackBegin items line v
    (e, .stack s)
  | .set elms =>
    let (e, s) := defaultAccumBegin elms line v
    (e, .set s)

/-- Dispatch of AttrAccumulator.end (both Go variants ignore the line
argument, which is therefore dropped here). -/
def Accum.endA (ac : Accum) (name : String) : EndResult × Accum :=
  match ac with
  | .stack items =>
    let (r, s) := structStackEnd items name
    (r, .stack s)
  | .set elms =>
    let (r, s) := defaultAccumEnd elms name
    (r, .set s)

/-- The (structure, attribute, value) triples visited by ForEachAttr,
in iteration order: top-to-bottom for the stack variant, map order
(modelled as insertion order) for the set variant. -/
def Accum.attrPairs (ac : Accum) : List (String × String × String) :=
  match ac with
  | .stack items =>
    items.flatMap fun it => it.elm.attrs.map fun kv => (it.elm.name, kv.1, kv.2)
  | .set elms =>
    elms.flatMap fun nit => nit.2.elm.attrs.map fun kv => (nit.1, kv.1, kv.2)

/-- Parser-level processing error kinds reaching handleProcError. -/
inductive ProcError where
  | parser (msg : String)
  | accum (e : AccumError)
  | colgen (msg : String)
deriving Repr, DecidableEq

/-- proc/inserting.go Status (the Datetime field is not modelled). -/
structure Status where
  processedAtoms : Nat
  processedLines : Int
  error : Option ProcError
deriving Repr, DecidableEq

/-- The extractor configuration consumed by TTExtractor: corpus id,
atom and atom-parent structure names, accumulator choice, exported
structural attributes, n-gram size and columns (index plus modifier
function), optional self-join generator, line filter and the error
budget. -/
structure TTConf where
  corpusID : String
  atomStruct : String
  atomParentStruct : String
  stackStructEval : Bool
  structures : List (String × List String)
  ngramSize : Nat
  vertColumns : List (Nat × (String → String))
  colgenFn : Option (List (String × GoVal) → ColgenResult)
  filter : List String → Int → Accum → Bool
  maxNumErrors : Nat

/-- db/common.go VertColumns.MaxColumn: the largest configured column
index (zero when none is configured). -/
def maxColumn (vcs : List (Nat × (String → String))) : Nat :=
  vcs.foldl (fun m vc => if vc.1 > m then vc.1 else m) 0

/-- The full mutable state of TTExtractor, together with the insert and
status logs standing in for the database writer and status channel. -/
structure TTState where
  atomCounter : Nat
  lineCounter : Int
  errorCounter : Nat
  tokenInAtomCounter : Nat
  tokenCounter : Int
  lastAtomOpenLine : Int
  accum : Accum
  currAtomAttrs : Option (List (String × GoVal))
  currSentence : List (List Int)
  valueDict : WordDict
  colCounts : List (String × NgramCounter)
  inserts : List (List GoVal)
  statuses : List Status

/-- TTExtractor.handleProcError: sends a status event carrying the
error with the current atom and line counters, increments the error
counter, and signals the fatal stop exactly when the updated counter
exceeds the configured maximum. -/
def handleProcError (conf : TTConf) (st : TTState) (lineNum : Int)
    (e : ProcError) : TTState × Bool :=
  let st := { st with
    statuses := st.statuses ++ [⟨st.atomCounter, lineNum, some e⟩],
    errorCounter := st.errorCounter + 1 }
  (st, decide (st.errorCounter > conf.maxNumErrors))

/-- Result of one parser-event callback of the driver. -/
inductive StepRes where
  | ok (st : TTState)
  | fatal (st : TTState) (msg : String)
  | panicked (st : TTState)

/-- Wraps handleProcError into the step result: the fatal stop signal
is ErrorTooManyParsingErrors, anything else lets the parse continue. -/
def afterProcError (conf : TTConf) (st : TTState) (line : Int)
    (e : ProcError) : StepRes :=
  let (st2, f) := handleProcError conf st line e
  if f then .fatal st2 "too many parsing errors" else .ok st2

/-- The periodic status push performed every 1000 lines. -/
def pushStatus (st : TTState) (line : Int) : TTState :=
  { st with statuses := st.statuses ++ [⟨st.atomCounter, line, none⟩] }

/-- TTExtractor.acceptAttr: whether [structName].[attrName] is in the
configured per-structure whitelist. -/
def acceptAttr (conf : TTConf) (structName attrName : String) : Bool :=
  match alookup conf.structures structName with
  | some l => l.contains attrName
  | none => false

/-- TTExtractor.getCurrentAccumAttrs: the accumulator snapshot filtered
through the whitelist, keyed by structure_attribute column names. -/
def getCurrentAccumAttrs (conf : TTConf) (ac : Accum) : List (String × GoVal) :=
  ac.attrPairs.foldl
    (fun attrs skv =>
      if acceptAttr conf skv.1 skv.2.1 then
        aupsert attrs (skv.1 ++ "_" ++ skv.2.1) (.str skv.2.2)
      else attrs)
    []

/-- TTExtractor.generateAttrList: structure_attribute columns in
configuration order followed by wordcount, poscount, corpus_id and,
when a self-join generator is configured, item_id. -/
def generateAttrList (conf : TTConf) : List String :=
  (conf.structures.flatMap fun si => si.2.map fun item => si.1 ++ "_" ++ item)
    ++ ["wordcount", "poscount", "corpus_id"]
    ++ (if conf.colgenFn.isSome then ["item_id"] else [])

/-- The sparse per-token vector of dictionary ids built in ProcToken:
a slice of size MaxColumn+1 whose configured positions receive
dict.Add(modFn(column value)); the dictionary updates thread through in
configuration order. -/
def buildAttributes (conf : TTConf) (dict : WordDict) (cols : List String) :
    List Int × WordDict :=
  conf.vertColumns.foldl
    (fun acc vc =>
      let v := cols.getD vc.1 ""
      let (id, d2) := acc.2.Add (vc.2 v)
      (acc.1.set vc.1 (id : Int), d2))
    (List.replicate (maxColumn conf.vertColumns + 1) 0, dict)

/-- Modelled from the spec: the v3 NgramCounter.UniqueID takes no
argument (its source file is not part of this snapshot); per §3 the
canonical identifier is the space-joined sequence of dictionary
integers across all configured columns in a fixed column order, which
is UniqueID applied to the configured column indices in configuration
order. -/
def driverNgramKey (conf : TTConf) (ng : NgramCounter) : String :=
  ng.UniqueID (conf.vertColumns.map Prod.fst)

/-- The row-emission condition of ProcStructClose: the closed element
is the atom, or it is the atom-parent and no atom opening occurred
after the parent's opening. -/
def emitCond (conf : TTConf) (lastAtomOpen : Int) (item : AccumItem) : Bool :=
  item.elm.name == conf.atomStruct ||
    (item.elm.name == conf.atomParentStruct && lastAtomOpen < item.lineOpen)

/-- The end-of-callback status push (line divisible by 1000). -/
def finishStatus (st : TTState) (line : Int) : StepRes :=
  .ok (if line % 1000 == 0 then pushStatus st line else st)

/-- TTExtractor.ProcToken without the leading parser-error branch
(handled uniformly in procLine): updates the line counter, runs the
filter, interns the configured columns, extends the sentence buffer and
records the completed n-gram when the buffer has reached the n-gram
size. -/
def procToken (conf : TTConf) (st : TTState) (cols : List String) (idx : Int)
    (line : Int) : StepRes :=
  let st := { st with lineCounter := line }
  let st :=
    if conf.filter cols idx st.accum then
      let st := { st with tokenInAtomCounter := st.tokenInAtomCounter + 1,
                          tokenCounter := idx }
      let (attributes, dict2) := buildAttributes conf st.valueDict cols
      let st := { st with valueDict := dict2,
                          currSentence := st.currSentence ++ [attributes] }
      if st.currSentence.length ≥ conf.ngramSize then
        let ngram : NgramCounter :=
          { count := 1,
            tokens := st.currSentence.drop (st.currSentence.length - conf.ngramSize),
            arf := none }
        let key := driverNgramKey conf ngram
        match alookup st.colCounts key with
        | none => { st with colCounts := st.colCounts ++ [(key, ngram)] }
        | some c => { st with colCounts := aupsert st.colCounts key c.IncCount }
      else st
    else st
  finishStatus st line

/-- The atom / atom-parent bookkeeping of ProcStruct performed after a
successful accumulator begin (and empty-element end). -/
def procStructBookkeep (conf : TTConf) (st : TTState) (v : VStructure)
    (line : Int) : StepRes :=
  if v.name = conf.atomStruct then
    let st := { st with lastAtomOpenLine := line, tokenInAtomCounter := 0 }
    let attrs := getCurrentAccumAttrs conf st.accum
    let attrs := aupsert attrs "wordcount" (.int 0)
    let attrs := aupsert attrs "poscount" (.int 0)
    let attrs := aupsert attrs "corpus_id" (.str conf.corpusID)
    let st := { st with currAtomAttrs := some attrs,
                        atomCounter := st.atomCounter + 1 }
    match conf.colgenFn with
    | none => finishStatus st line
    | some f =>
      match f attrs with
      | .ok s =>
        finishStatus { st with currAtomAttrs := some (aupsert attrs "item_id" (.str s)) } line
      | .err m =>
        afterProcError conf
          { st with currAtomAttrs := some (aupsert attrs "item_id" (.str "")) }
          line (.colgen m)
      | .panic => .panicked st
  else if v.name = conf.atomParentStruct then
    let attrs := getCurrentAccumAttrs conf st.accum
    let attrs := aupsert attrs "wordcount" (.int 0)
    let attrs := aupsert attrs "poscount" (.int 0)
    let attrs := aupsert attrs "corpus_id" (.str conf.corpusID)
    match conf.colgenFn with
    | none => finishStatus { st with currAtomAttrs := some attrs } line
    | some f =>
      match f attrs with
      | .ok s =>
        finishStatus { st with currAtomAttrs := some (aupsert attrs "item_id" (.str s)) } line
      | .err m => afterProcError conf st line (.colgen m)
      | .panic => .panicked st
  else finishStatus st line

/-- TTExtractor.ProcStruct without the parser-error branch: accumulator
begin, the empty-element immediate end, then bookkeeping. -/
def procStructOpen (conf : TTConf) (st : TTState) (v : VStructure)
    (line : Int) : StepRes :=
  let st := { st with lineCounter := line }
  let (e, ac2) := st.accum.beginA line v
  let st := { st with accum := ac2 }
  match e with
  | some er => afterProcError conf st line (.accum er)
  | none =>
    if v.isEmpty then
      let (r, ac3) := st.accum.endA v.name
      let st := { st with accum := ac3 }
      match r with
      | .err er => afterProcError conf st line (.accum er)
      | .panic => .panicked st
      | .ok _ => procStructBookkeep conf st v line
    else procStructBookkeep conf st v line

/-- TTExtractor.ProcStructClose without the parser-error branch:
accumulator end, the emission condition, row construction and the
sentence-buffer reset.  The docInsert.Exec call is modelled as an
always-successful append to the insert log (writer failures are out of
scope of the verified claims). -/
def procStructClose (conf : TTConf) (st : TTState) (name : String)
    (line : Int) : StepRes :=
  let (r, ac2) := st.accum.endA name
  let st := { st with accum := ac2 }
  match r with
  | .err er => afterProcError conf st line (.accum er)
  | .panic => .panicked st
  | .ok item =>
    let st := { st with lineCounter := line }
    if emitCond conf st.lastAtomOpenLine item then
      match st.currAtomAttrs with
      | none => .fatal st "currAtomAttrs not initialized"
      | some attrs =>
        let attrs := aupsert attrs "poscount" (.int st.tokenInAtomCounter)
        let values := (generateAttrList conf).map fun n =>
          (alookup attrs n).getD (.str "")
        let st := { st with
          inserts := st.inserts ++ [values],
          currAtomAttrs := some [],
          currSentence := [] }
        finishStatus st line
    else finishStatus st line

/-- A parser event as delivered to the driver. -/
inductive VertEvent where
  | token (cols : List String) (idx : Int)
  | structOpen (v : VStructure)
  | structClose (name : String)
deriving Repr

/-- One input line: the event plus an optional upstream parser error
(the err argument of the LineProcessor callbacks). -/
structure LineInput where
  ev : VertEvent
  perr : Option String := none

/-- The per-line dispatch: a parser error is forwarded to
handleProcError first (all three callbacks do this), otherwise the
event-specific processing runs. -/
def procLine (conf : TTConf) (st : TTState) (line : Int) (li : LineInput) :
    StepRes :=
  match li.perr with
  | some m => afterProcError conf st line (.parser m)
  | none =>
    match li.ev with
    | .token cols idx => procToken conf st cols idx line
    | .structOpen v => procStructOpen conf st v line
    | .structClose name => procStructClose conf st name line

/-- Outcome of processing a whole event stream. -/
inductive RunOutcome where
  | ok (st : TTState)
  | fatal (st : TTState) (msg : String)
  | panicked (st : TTState)

/-- Folds the driver over the remaining events, numbering lines
sequentially; stops at the first fatal error or panic. -/
def runFrom (conf : TTConf) (st : TTState) (line : Int) :
    List LineInput → RunOutcome
  | [] => .ok st
  | li :: rest =>
    match procLine conf st line li with
    | .ok st2 => runFrom conf st2 (line + 1) rest
    | .fatal st2 m => .fatal st2 m
    | .panicked st2 => .panicked st2

/-- The driver state at the start of a run (NewTTExtractor). -/
def initTTState (conf : TTConf) : TTState :=
  { atomCounter := 0, lineCounter := 0, errorCounter := 0,
    tokenInAtomCounter := 0, tokenCounter := 0, lastAtomOpenLine := -1,
    accum := if conf.stackStructEval then .stack [] else .set [],
    currAtomAttrs := none, currSentence := [], valueDict := NewWordDict,
    colCounts := [], inserts := [], statuses := [] }

/-- Processes a full event stream from the initial driver state. -/
def runEvents (conf : TTConf) (evs : List LineInput) : RunOutcome :=
  runFrom conf (initTTState conf) 0 evs

/-- Reads a digit list back as a natural number (decimal evaluation);
used to prove injectivity of the decimal representation. -/
def evalDigits (ds : List Nat) : Nat :=
  ds.foldl (fun a d => 10 * a + d) 0

/-- Reads a decimal digit character back as its value. -/
def charToDigit (c : Char) : Nat :=
  c.toNat - 48

/-- The projection of the driver state that determines row emission:
the accumulator, the last atom-open line and the number of rows
inserted so far. -/
structure RefState where
  accum : Accum
  lastAtomOpen : Int
  rows : Nat
deriving Repr

/-- The reference row-counting machine: it replays only the accumulator
discipline, the last-atom-open bookkeeping and the driver's emission
condition, counting one row per close event that satisfies it. -/
def refStep (conf : TTConf) (rs : RefState) (line : Int) (li : LineInput) :
    RefState :=
  match li.perr with
  | some _ => rs
  | none =>
    match li.ev with
    | .token _ _ => rs
    | .structOpen v =>
      let (e, ac2) := rs.accum.beginA line v
      match e with
      | some _ => { rs with accum := ac2 }
      | none =>
        if v.isEmpty then
          let (r, ac3) := ac2.endA v.name
          match r with
          | .ok _ =>
            if v.name = conf.atomStruct then ⟨ac3, line, rs.rows⟩
            else { rs with accum := ac3 }
          | _ => { rs with accum := ac3 }
        else
          if v.name = conf.atomStruct then ⟨ac2, line, rs.rows⟩
          else { rs with accum := ac2 }
    | .structClose name =>
      let (r, ac2) := rs.accum.endA name
      match r with
      | .ok item =>
        if emitCond conf rs.lastAtomOpen item then
          ⟨ac2, rs.lastAtomOpen, rs.rows + 1⟩
        else { rs with accum := ac2 }
      | _ => { rs with accum := ac2 }

/-- Folds the reference machine over the events. -/
def runRefFrom (conf : TTConf) (rs : RefState) (line : Int) :
    List LineInput → RefState
  | [] => rs
  | li :: rest => runRefFrom conf (refStep conf rs line li) (line + 1) rest

/-- Initial reference state, mirroring NewTTExtractor. -/
def initRefState (conf : TTConf) : RefState :=
  ⟨if conf.stackStructEval then .stack [] else .set [], -1, 0⟩

/-- Runs the reference machine over a full stream. -/
def runRef (conf : TTConf) (evs : List LineInput) : RefState :=
  runRefFrom conf (initRefState conf) 0 evs

/-- The row-count predicted by the claim read literally: one row per
closed atom plus one per closed atom-parent whose closing was not
preceded, since the parent's opening, by any atom closure.  This
definition follows the claim's words (for comparison against the
code); lastAtomClose records the line of the most recent atom
closure. -/
structure ClaimState where
  accum : Accum
  lastAtomClose : Int
  rows : Nat
deriving Repr

/-- One step of the claim-words counting machine. -/
def claimStep (conf : TTConf) (cs : ClaimState) (line : Int) (li : LineInput) :
    ClaimState :=
  match li.perr with
  | some _ => cs
  | none =>
    match li.ev with
    | .token _ _ => cs
    | .structOpen v =>
      let (e, ac2) := cs.accum.beginA line v
      match e with
      | some _ => { cs with accum := ac2 }
      | none =>
        if v.isEmpty then
          let (r, ac3) := ac2.endA v.name
          match r with
          | _ => { cs with accum := ac3 }
        else { cs with accum := ac2 }
    | .structClose name =>
      let (r, ac2) := cs.accum.endA name
      match r with
      | .ok item =>
        if item.elm.name = conf.atomStruct then ⟨ac2, line, cs.rows + 1⟩
        else if item.elm.name = conf.atomParentStruct ∧
            cs.lastAtomClose < item.lineOpen then
          ⟨ac2, cs.lastAtomClose, cs.rows + 1⟩
        else { cs with accum := ac2 }
      | _ => { cs with accum := ac2 }

/-- Folds the claim-words machine over the events. -/
def runClaimFrom (conf : TTConf) (cs : ClaimState) (line : Int) :
    List LineInput → ClaimState
  | [] => cs
  | li :: rest => runClaimFrom conf (claimStep conf cs line li) (line + 1) rest

/-- Runs the claim-words machine over a full stream. -/
def runClaim (conf : TTConf) (evs : List LineInput) : ClaimState :=
  runClaimFrom conf ⟨if conf.stackStructEval then .stack [] else .set [], -1, 0⟩ 0 evs

/-- Projects the driver state onto the reference machine's state. -/
def refProj (st : TTState) : RefState :=
  ⟨st.accum, st.lastAtomOpenLine, st.inserts.length⟩

/-- Well-formedness invariant of a WordDict reachable by Add calls:
forward and reverse maps agree and ids lie in [1, counter]. -/
def WDInv (w : WordDict) : Prop :=
  (∀ s v, alookup w.data s = some v → alookup w.dataRev v = some s) ∧
  (∀ s v, alookup w.data s = some v → 1 ≤ v ∧ v ≤ w.counter) ∧
  (∀ v s, alookup w.dataRev v = some s → alookup w.data s = some v)

/-- Scenario S5: atom structure s, bigrams over column 0, pass-all
filter, no self-join generator. -/
def c2Conf : TTConf :=
  { corpusID := "corp1", atomStruct := "s", atomParentStruct := "",
    stackStructEval := false, structures := [("s", [])], ngramSize := 2,
    vertColumns := [(0, fun s => s)], colgenFn := none,
    filter := fun _ _ _ => true, maxNumErrors := 10 }

/-- Scenario S5 event stream:
begin(s), tok(A), tok(B), end(s), begin(s), tok(C), end(s). -/
def c2Events : List LineInput :=
  [⟨.structOpen ⟨"s", [], false⟩, none⟩,
   ⟨.token ["A"] 0, none⟩,
   ⟨.token ["B"] 1, none⟩,
   ⟨.structClose "s", none⟩,
   ⟨.structOpen ⟨"s", [], false⟩, none⟩,
   ⟨.token ["C"] 2, none⟩,
   ⟨.structClose "s", none⟩]

/-- Configuration for the atom-parent counterexample: atom p inside
parent doc, set accumulator (the default). -/
def c1Conf : TTConf :=
  { corpusID := "corp1", atomStruct := "p", atomParentStruct := "doc",
    stackStructEval := false, structures := [("doc", ["id"]), ("p", [])],
    ngramSize := 0, vertColumns := [], colgenFn := none,
    filter := fun _ _ _ => true, maxNumErrors := 10 }

/-- Counterexample stream: the parent doc opens, an atom p opens (but
never closes), the parent closes.  No atom closure occurs, yet the
driver inserts no row because an atom opening occurred after the
parent's opening. -/
def c1Events : List LineInput :=
  [⟨.structOpen ⟨"doc", [("id", "d1")], false⟩, none⟩,
   ⟨.structOpen ⟨"p", [], false⟩, none⟩,
   ⟨.structClose "doc", none⟩]

/-- Character-level counterpart of goJoin, used to reason about the
n-gram key encoding. -/
def charJoin (sep : List Char) (l : List (List Char)) : List Char :=
  match l with
  | [] => []
  | [x] => x
  | x :: xs => x ++ sep ++ charJoin sep xs

/-- Lookup after update-or-append at the updated key reads the new
value. -/
theorem alookup_aupsert_self {α β : Type} [DecidableEq α]
    (l : List (α × β)) (k : α) (v : β) :
    alookup (aupsert l k v) k = some v := by
  induction l with
  | nil => simp [aupsert, alookup]
  | cons hd tl ih =>
    obtain ⟨k3, v3⟩ := hd
    by_cases h3 : k3 = k <;> simp [aupsert, alookup, h3, ih]

/-- Lookup after update-or-append at a different key is unaffected. -/
theorem alookup_aupsert_ne {α β : Type} [DecidableEq α]
    (l : List (α × β)) (k k2 : α) (v : β) (h : k2 ≠ k) :
    alookup (aupsert l k v) k2 = alookup l k2 := by
  induction l with
  | nil => simp [aupsert, alookup, Ne.symm h]
  | cons hd tl ih =>
    obtain ⟨k3, v3⟩ := hd
    by_cases h3 : k3 = k
    · subst h3
      simp [aupsert, alookup, Ne.symm h]
    · by_cases h2 : k3 = k2 <;> simp [aupsert, alookup, h3, h2, h, ih]

/-- C5: on a non-empty strict accumulator, end with a non-matching name
fails with the nested-mismatch error carrying both names and leaves the
stack unchanged; with a matching name it pops and returns the opened
structure.  Concretely, after begin(doc), begin(p), the call end(doc)
fails and the stack still holds p over doc. -/
theorem structStackEnd_spec (top : AccumItem) (rest : List AccumItem)
    (name : String) :
    (top.elm.name ≠ name →
      structStackEnd (top :: rest) name =
        (.err (.nestedMismatch name top.elm.name), top :: rest)) ∧
    (top.elm.name = name →
      structStackEnd (top :: rest) name = (.ok top, rest)) ∧
    structStackEnd
        (structStackBegin
          ((structStackBegin [] 0 ⟨"doc", [], false⟩).2) 1 ⟨"p", [], false⟩).2
        "doc"
      = (.err (.nestedMismatch "doc" "p"),
         [⟨⟨"p", [], false⟩, 1⟩, ⟨⟨"doc", [], false⟩, 0⟩]) := by
  refine ⟨fun h => by simp [structStackEnd, h], fun h => by simp [structStackEnd, h], ?_⟩
  decide

/-- Witness for structStackEnd_spec: the mismatch case at the concrete
S1 input. -/
theorem structStackEnd_spec_witness :
    (⟨⟨"p", [], false⟩, 1⟩ : AccumItem).elm.name ≠ "doc" ∧
    structStackEnd [⟨⟨"p", [], false⟩, 1⟩, ⟨⟨"doc", [], false⟩, 0⟩] "doc"
      = (.err (.nestedMismatch "doc" "p"),
         [⟨⟨"p", [], false⟩, 1⟩, ⟨⟨"doc", [], false⟩, 0⟩]) :=
  ⟨by decide,
   (structStackEnd_spec ⟨⟨"p", [], false⟩, 1⟩ [⟨⟨"doc", [], false⟩, 0⟩]
     "doc").1 (by decide)⟩

/-- C10: the strict accumulator's end on an empty stack is a nil
pointer dereference (a crash), while the set variant's end on an
absent name returns a recoverable missing-open error and leaves the
state unchanged. -/
theorem structStackEnd_empty_panics (name : String)
    (sa : List (String × AccumItem)) (h : alookup sa name = none) :
    structStackEnd [] name = (.panic, []) ∧
    defaultAccumEnd sa name = (.err (.missingOpen name), sa) := by
  refine ⟨rfl, ?_⟩
  simp [defaultAccumEnd, h]

/-- Witness for structStackEnd_empty_panics at a concrete name and the
empty set accumulator. -/
theorem structStackEnd_empty_panics_witness :
    alookup ([] : List (String × AccumItem)) "doc" = none ∧
    structStackEnd [] "doc" = (.panic, []) ∧
    defaultAccumEnd [] "doc" = (.err (.missingOpen "doc"), []) :=
  ⟨rfl, (structStackEnd_empty_panics "doc" [] rfl).1,
   (structStackEnd_empty_panics "doc" [] rfl).2⟩

/-- C7: handleProcError emits a status event carrying the error and the
processed-atoms and processed-lines counters, increments the error
counter, and signals the fatal too-many-errors stop exactly when the
updated error count exceeds maxNumErrors; otherwise the parse
continues. -/
theorem handleProcError_spec (conf : TTConf) (st : TTState) (line : Int)
    (e : ProcError) :
    (handleProcError conf st line e).1.statuses
        = st.statuses ++ [⟨st.atomCounter, line, some e⟩] ∧
    (handleProcError conf st line e).1.errorCounter = st.errorCounter + 1 ∧
    ((handleProcError conf st line e).2 = true ↔
        st.errorCounter + 1 > conf.maxNumErrors) := by
  refine ⟨rfl, rfl, ?_⟩
  simp [handleProcError]

/-- C9 counterexample: a configuration with dateAttr set but
removeEntriesBeforeDate unset (exactly one of the two fields set)
passes Validate without error, contradicting the claimed iff. -/
theorem validate_dateAttr_only_passes :
    (VTEConfV.mk "vert.txt" [] none (some "created")).dateAttr.isSome = true ∧
    (VTEConfV.mk "vert.txt" [] none
      (some "created")).removeEntriesBeforeDate.isSome = false ∧
    (VTEConfV.mk "vert.txt" [] none (some "created")).Validate = none := by
  refine ⟨rfl, rfl, ?_⟩
  decide

/-- C9 amended: Validate accepts a configuration exactly when it does
not set verticalFile and verticalFiles simultaneously and does not set
removeEntriesBeforeDate without dateAttr; a dateAttr without the
retention date is accepted. -/
theorem validate_spec (c : VTEConfV) :
    c.Validate = none ↔
      ((c.verticalFile = "" ∨ c.verticalFiles = []) ∧
       (c.removeEntriesBeforeDate.isSome → c.dateAttr.isSome)) := by
  unfold VTEConfV.Validate
  split_ifs with h1 h2
  · simp only [false_iff]
    intro hc
    rcases h1 with ⟨hf, hl⟩
    rcases hc.1 with h | h
    · exact hf h
    · simp [h] at hl
  · simp only [false_iff]
    intro hc
    rcases h2 with ⟨hr, hd⟩
    have := hc.2 hr
    simp [Option.isNone_iff_eq_none] at hd
    simp [hd] at this
  · simp only [true_iff]
    constructor
    · by_cases hf : c.verticalFile = ""
      · exact Or.inl hf
      · right
        by_cases hl : c.verticalFiles = []
        · exact hl
        · exact absurd ⟨hf, by simpa [List.length_pos] using hl⟩ h1
    · intro hr
      by_cases hd : c.dateAttr.isSome
      · exact hd
      · have hnone : c.dateAttr = none := by
          cases hda : c.dateAttr with
          | none => rfl
          | some x => simp [hda] at hd
        exact absurd ⟨hr, by simp [hnone]⟩ h2

/-- C6 counterexample: on args {doc_id: en:abc} with arg column doc_id,
intercorp returns :abc (it drops the first two characters of en:abc),
not abc as claimed. -/
theorem intercorp_en_abc :
    intercorp [("doc_id", .str "en:abc")] ["doc_id"] = .ok ":abc" ∧
    (":abc" : String) ≠ "abc" :=
  ⟨rfl, by decide⟩

/-- C6 amended: when the first (single) arg column is present as a
string of byte length at least two, intercorp succeeds and returns the
value with its first two characters dropped; on en:abc this is :abc. -/
theorem intercorp_first_suffix (attrs : List (String × GoVal)) (key s : String)
    (h : alookup attrs key = some (.str s)) (h2 : 2 ≤ s.length) :
    intercorp attrs [key] = .ok (s.drop 2) := by
  simp only [intercorp, fetchStringVals, h]
  simp [show ¬s.length < 2 by omega]

/-- Witness for intercorp_first_suffix at the S4 input. -/
theorem intercorp_first_suffix_witness :
    alookup [("doc_id", GoVal.str "en:abc")] "doc_id"
        = some (.str "en:abc") ∧
    2 ≤ ("en:abc" : String).length ∧
    intercorp [("doc_id", GoVal.str "en:abc")] ["doc_id"]
        = .ok (("en:abc" : String).drop 2) :=
  ⟨rfl, by decide,
   intercorp_first_suffix [("doc_id", GoVal.str "en:abc")] "doc_id" "en:abc"
     rfl (by decide)⟩

/-- C4: an n-gram type matched exactly once in the second pass has its
accumulator still at zero after the pass (the previous-index sentinel
-1 suppresses the increment at the single match), and Finalize then
yields an ARF of exactly 1: the wrap-around term min(N/1, first + N -
prev) equals N, divided by N/1 and rounded to three decimals. -/
theorem arf_singleton_is_one (numTokens : Int) (i : Int)
    (h : 0 < numTokens) :
    (arfMatchStep numTokens 1 none i).arf = 0 ∧
    (arfFinalizeEntry numTokens 1 (arfMatchStep numTokens 1 none i)).arf
      = 1 := by
  have hstep : arfMatchStep numTokens 1 none i
      = { arf := 0, firstIdx := i, prevTokIdx := i } := by
    simp [arfMatchStep]
  refine ⟨by rw [hstep], ?_⟩
  rw [hstep]
  have hcast : ((numTokens : Rat)) ≠ 0 := by
    exact_mod_cast h.ne.symm
  have harg : i + numTokens - i = numTokens := by ring
  simp only [arfFinalizeEntry, Nat.cast_one, div_one, harg]
  rw [arfMin, if_neg (lt_irrefl _), zero_add, div_self hcast]
  have hround : goRound ((1 : Rat) * 1000) = 1000 := by
    rw [goRound, if_neg (by norm_num)]
    rw [show (1 : Rat) * 1000 + 1 / 2 = 2001 / 2 by norm_num]
    rw [Int.floor_eq_iff]
    norm_num
  rw [hround]
  norm_num

/-- Witness for arf_singleton_is_one: the S6 scenario with N = 1000. -/
theorem arf_singleton_is_one_witness :
    (0 : Int) < 1000 ∧
    (arfMatchStep 1000 1 none 17).arf = 0 ∧
    (arfFinalizeEntry 1000 1 (arfMatchStep 1000 1 none 17)).arf = 1 :=
  ⟨by norm_num, (arf_singleton_is_one 1000 17 (by norm_num)).1,
   (arf_singleton_is_one 1000 17 (by norm_num)).2⟩

/-- C2: with atom structure s and n = 2, the stream begin(s), tok(A),
tok(B), end(s), begin(s), tok(C), end(s) leaves the n-gram map with the
single entry AB (dictionary ids 1 2) at count 1; the bigram BC (ids
2 3) is absent because the sentence buffer is reset on the atom
closure. -/
theorem ngram_reset_on_atom_close :
    (match runEvents c2Conf c2Events with
     | .ok st => some st.colCounts
     | _ => none)
      = some [(NgramCounter.UniqueID ⟨1, [[1], [2]], none⟩ [0],
               ⟨1, [[1], [2]], none⟩)] ∧
    (match runEvents c2Conf c2Events with
     | .ok st => alookup st.colCounts
         (NgramCounter.UniqueID ⟨1, [[2], [3]], none⟩ [0])
     | _ => some ⟨0, [], none⟩)
      = none := by
  exact ⟨rfl, rfl⟩

/-- The empty dictionary satisfies the invariant. -/
theorem wdinv_new : WDInv NewWordDict := by
  refine ⟨?_, ?_, ?_⟩ <;> intro a b h <;> simp [NewWordDict, alookup] at h

/-- Add on a word already present returns the stored id and leaves the
state unchanged. -/
theorem wd_add_eq_found (w : WordDict) (s : String) (v : Nat)
    (h : alookup w.data s = some v) : w.Add s = (v, w) := by
  unfold WordDict.Add
  rw [h]

/-- Add on an absent word returns the incremented counter and records
the word in both maps. -/
theorem wd_add_eq_new (w : WordDict) (s : String)
    (h : alookup w.data s = none) :
    w.Add s = (w.counter + 1,
      ⟨w.counter + 1, aupsert w.data s (w.counter + 1),
       aupsert w.dataRev (w.counter + 1) s⟩) := by
  unfold WordDict.Add
  rw [h]

/-- Add preserves the dictionary invariant. -/
theorem wdinv_add (w : WordDict) (h : WDInv w) (s : String) :
    WDInv (w.Add s).2 := by
  obtain ⟨i1, i2, i3⟩ := h
  cases hlook : alookup w.data s with
  | some v =>
    rw [wd_add_eq_found w s v hlook]
    exact ⟨i1, i2, i3⟩
  | none =>
    rw [wd_add_eq_new w s hlook]
    refine ⟨?_, ?_, ?_⟩
    · intro s0 v0 h0
      dsimp only at h0 ⊢
      by_cases hs : s0 = s
      · subst hs
        rw [alookup_aupsert_self] at h0
        cases h0
        exact alookup_aupsert_self _ _ _
      · rw [alookup_aupsert_ne _ _ _ _ hs] at h0
        have hb := i2 s0 v0 h0
        have : v0 ≠ w.counter + 1 := by omega
        rw [alookup_aupsert_ne _ _ _ _ this]
        exact i1 s0 v0 h0
    · intro s0 v0 h0
      dsimp only at h0 ⊢
      by_cases hs : s0 = s
      · subst hs
        rw [alookup_aupsert_self] at h0
        cases h0
        omega
      · rw [alookup_aupsert_ne _ _ _ _ hs] at h0
        have := i2 s0 v0 h0
        omega
    · intro v0 s0 h0
      dsimp only at h0 ⊢
      by_cases hv : v0 = w.counter + 1
      · subst hv
        rw [alookup_aupsert_self] at h0
        cases h0
        exact alookup_aupsert_self _ _ _
      · rw [alookup_aupsert_ne _ _ _ _ hv] at h0
        have hdata := i3 v0 s0 h0
        have hs : s0 ≠ s := by
          intro he
          subst he
          rw [hlook] at hdata
          cases hdata
        rw [alookup_aupsert_ne _ _ _ _ hs]
        exact hdata

/-- After Add, the added word is bound to the returned id. -/
theorem wd_add_binding (w : WordDict) (s : String) :
    alookup (w.Add s).2.data s = some (w.Add s).1 := by
  cases hlook : alookup w.data s with
  | some v =>
    rw [wd_add_eq_found w s v hlook]
    exact hlook
  | none =>
    rw [wd_add_eq_new w s hlook]
    exact alookup_aupsert_self _ _ _

/-- A single Add never changes an existing binding. -/
theorem wd_add_persist (w : WordDict) (s s2 : String) (v : Nat)
    (hb : alookup w.data s = some v) :
    alookup (w.Add s2).2.data s = some v := by
  cases hlook : alookup w.data s2 with
  | some v2 =>
    rw [wd_add_eq_found w s2 v2 hlook]
    exact hb
  | none =>
    rw [wd_add_eq_new w s2 hlook]
    have hs : s ≠ s2 := by
      intro he
      subst he
      rw [hlook] at hb
      cases hb
    dsimp only
    rw [alookup_aupsert_ne _ _ _ _ hs]
    exact hb

/-- addMany preserves the invariant. -/
theorem wdinv_addMany (ws : List String) (w : WordDict) (h : WDInv w) :
    WDInv (w.addMany ws) := by
  induction ws generalizing w with
  | nil => exact h
  | cons hd tl ih => exact ih _ (wdinv_add w h hd)

/-- addMany never changes an existing binding. -/
theorem wd_addMany_persist (ws : List String) (w : WordDict) (s : String)
    (v : Nat) (hb : alookup w.data s = some v) :
    alookup (w.addMany ws).data s = some v := by
  induction ws generalizing w with
  | nil => exact hb
  | cons hd tl ih => exact ih _ (wd_add_persist w s hd v hb)

/-- Get after Add returns the added word, on any invariant-satisfying
dictionary. -/
theorem wd_get_add (w : WordDict) (h : WDInv w) (s : String) :
    ((w.Add s).2).Get ((w.Add s).1) = s := by
  obtain ⟨i1, _, _⟩ := h
  unfold WordDict.Get
  cases hlook : alookup w.data s with
  | some v =>
    rw [wd_add_eq_found w s v hlook]
    rw [i1 s v hlook]
    rfl
  | none =>
    rw [wd_add_eq_new w s hlook]
    dsimp only
    rw [alookup_aupsert_self]
    rfl

/-- C8: over any reachable dictionary state, get(add(s)) = s, the id
returned by add is non-zero, and the ids returned for s1 and for s2
(after any number of intervening adds) coincide exactly when the two
strings coincide. -/
theorem wordDict_bijection (ws mid : List String) (s s1 s2 : String) :
    (((NewWordDict.addMany ws).Add s).2.Get
        ((NewWordDict.addMany ws).Add s).1 = s) ∧
    ((NewWordDict.addMany ws).Add s).1 ≠ 0 ∧
    (((((NewWordDict.addMany ws).Add s1).2.addMany mid).Add s2).1
        = ((NewWordDict.addMany ws).Add s1).1 ↔ s2 = s1) := by
  have hd : WDInv (NewWordDict.addMany ws) := wdinv_addMany ws _ wdinv_new
  obtain ⟨i1, i2, i3⟩ := hd
  refine ⟨wd_get_add _ ⟨i1, i2, i3⟩ s, ?_, ?_⟩
  · cases hlook : alookup (NewWordDict.addMany ws).data s with
    | some v =>
      rw [wd_add_eq_found _ s v hlook]
      have := i2 s v hlook
      dsimp only
      omega
    | none =>
      rw [wd_add_eq_new _ s hlook]
      dsimp only
      omega
  · set d := NewWordDict.addMany ws with hdc
    set v1 := (d.Add s1).1 with hv1
    have hd1 : WDInv (d.Add s1).2 := wdinv_add d ⟨i1, i2, i3⟩ s1
    have hb1 : alookup (d.Add s1).2.data s1 = some v1 := wd_add_binding d s1
    set d2 := (d.Add s1).2.addMany mid with hd2c
    have hd2 : WDInv d2 := wdinv_addMany mid _ hd1
    have hb2 : alookup d2.data s1 = some v1 :=
      wd_addMany_persist mid _ s1 v1 hb1
    obtain ⟨j1, j2, j3⟩ := hd2
    constructor
    · intro heq
      cases hlook2 : alookup d2.data s2 with
      | some v2 =>
        rw [wd_add_eq_found d2 s2 v2 hlook2] at heq
        dsimp only at heq
        subst heq
        have hr1 := j1 s1 v1 hb2
        have hr2 := j1 s2 v1 hlook2
        rw [hr1] at hr2
        cases hr2
        rfl
      | none =>
        rw [wd_add_eq_new d2 s2 hlook2] at heq
        dsimp only at heq
        have := j2 s1 v1 hb2
        omega
    · intro heq
      subst heq
      rw [wd_add_eq_found d2 s2 v1 hb2]


/-- The fuel argument of natDigitsF is irrelevant once sufficient. -/
theorem natDigitsF_fuel (n : Nat) : ∀ (f1 f2 : Nat), n < f1 → n < f2 →
    natDigitsF f1 n = natDigitsF f2 n := by
  induction n using Nat.strong_induction_on with
  | _ n ih =>
    intro f1 f2 h1 h2
    match f1, f2 with
    | g1 + 1, g2 + 1 =>
      simp only [natDigitsF]
      split
      · rfl
      · rename_i hge
        have hlt : n / 10 < n := Nat.div_lt_self (by omega) (by omega)
        rw [ih (n / 10) hlt g1 g2 (by omega) (by omega)]

/-- The defining recursion of natDigits. -/
theorem natDigits_eq (n : Nat) :
    natDigits n = if n < 10 then [n] else natDigits (n / 10) ++ [n % 10] := by
  unfold natDigits
  conv_lhs => rw [natDigitsF]
  split
  · rfl
  · rename_i hge
    have hlt : n / 10 < n := Nat.div_lt_self (by omega) (by omega)
    rw [natDigitsF_fuel (n / 10) n (n / 10 + 1) hlt (by omega)]

/-- The decimal expansion is never empty. -/
theorem natDigits_ne_nil (n : Nat) : natDigits n ≠ [] := by
  rw [natDigits_eq]
  split <;> simp

/-- Every decimal digit is below ten. -/
theorem natDigits_lt10 (n : Nat) : ∀ d ∈ natDigits n, d < 10 := by
  induction n using Nat.strong_induction_on with
  | _ n ih =>
    rw [natDigits_eq]
    split
    · rename_i h
      intro d hd
      simp at hd
      omega
    · rename_i h
      intro d hd
      simp at hd
      rcases hd with hd | hd
      · exact ih (n / 10) (Nat.div_lt_self (by omega) (by omega)) d hd
      · omega

/-- Reading back a list extended by one digit. -/
theorem evalDigits_append_one (ds : List Nat) (y : Nat) :
    evalDigits (ds ++ [y]) = 10 * evalDigits ds + y := by
  unfold evalDigits
  rw [List.foldl_append]
  rfl

/-- Reading the decimal expansion back recovers the number. -/
theorem evalDigits_natDigits (n : Nat) : evalDigits (natDigits n) = n := by
  induction n using Nat.strong_induction_on with
  | _ n ih =>
    rw [natDigits_eq]
    split
    · rename_i h
      simp [evalDigits]
    · rename_i h
      rw [evalDigits_append_one,
        ih (n / 10) (Nat.div_lt_self (by omega) (by omega))]
      omega

/-- The decimal expansion is injective. -/
theorem natDigits_inj (a b : Nat) (h : natDigits a = natDigits b) : a = b := by
  rw [← evalDigits_natDigits a, ← evalDigits_natDigits b, h]

/-- digitChar is inverted by charToDigit on digits. -/
theorem charToDigit_digitChar (d : Nat) (h : d < 10) :
    charToDigit (Nat.digitChar d) = d := by
  interval_cases d <;> decide

/-- Digit characters are not the space character. -/
theorem digitChar_ne_space (d : Nat) (h : d < 10) :
    Nat.digitChar d ≠ ' ' := by
  interval_cases d <;> decide

/-- Digit characters are not the minus sign. -/
theorem digitChar_ne_minus (d : Nat) (h : d < 10) :
    Nat.digitChar d ≠ '-' := by
  interval_cases d <;> decide

/-- Mapping digitChar over a digit list is cancelled by charToDigit. -/
theorem map_digitChar_cancel (ds : List Nat) (h : ∀ d ∈ ds, d < 10) :
    (ds.map Nat.digitChar).map charToDigit = ds := by
  induction ds with
  | nil => rfl
  | cons d rest ih =>
    simp only [List.map_cons]
    rw [charToDigit_digitChar d (h d (by simp)),
      ih (fun e he => h e (by simp [he]))]

/-- The characters of the decimal string of a natural number. -/
theorem natRepr_data (n : Nat) :
    (natRepr n).data = (natDigits n).map Nat.digitChar := rfl

/-- The decimal string of a natural number is injective. -/
theorem natRepr_inj (a b : Nat) (h : natRepr a = natRepr b) : a = b := by
  have hd := congrArg String.data h
  rw [natRepr_data, natRepr_data] at hd
  have := congrArg (List.map charToDigit) hd
  rw [map_digitChar_cancel _ (natDigits_lt10 a),
    map_digitChar_cancel _ (natDigits_lt10 b)] at this
  exact natDigits_inj a b this

/-- The decimal string of a natural number is non-empty. -/
theorem natRepr_data_ne_nil (n : Nat) : (natRepr n).data ≠ [] := by
  rw [natRepr_data]
  simp [List.map_eq_nil_iff, natDigits_ne_nil]

/-- The decimal string of a natural number has no space. -/
theorem natRepr_space_free (n : Nat) : ∀ c ∈ (natRepr n).data, c ≠ ' ' := by
  rw [natRepr_data]
  intro c hc
  simp at hc
  obtain ⟨d, hd, rfl⟩ := hc
  exact digitChar_ne_space d (natDigits_lt10 n d hd)

/-- The decimal string of a natural number has no minus sign. -/
theorem natRepr_no_minus (n : Nat) : ∀ c ∈ (natRepr n).data, c ≠ '-' := by
  rw [natRepr_data]
  intro c hc
  simp at hc
  obtain ⟨d, hd, rfl⟩ := hc
  exact digitChar_ne_minus d (natDigits_lt10 n d hd)

/-- The characters of the decimal string of an integer. -/
theorem intRepr_data (z : Int) :
    (intRepr z).data
      = if z < 0 then '-' :: (natRepr z.natAbs).data
        else (natRepr z.natAbs).data := by
  unfold intRepr
  split <;> rfl

/-- The decimal string of an integer is non-empty. -/
theorem intRepr_data_ne_nil (z : Int) : (intRepr z).data ≠ [] := by
  rw [intRepr_data]
  split
  · simp
  · exact natRepr_data_ne_nil _

/-- The decimal string of an integer has no space. -/
theorem intRepr_space_free (z : Int) : ∀ c ∈ (intRepr z).data, c ≠ ' ' := by
  rw [intRepr_data]
  split
  · intro c hc
    rcases List.mem_cons.mp hc with rfl | hc
    · decide
    · exact natRepr_space_free _ c hc
  · exact natRepr_space_free _

/-- The decimal string of an integer is injective. -/
theorem intRepr_inj : Function.Injective intRepr := by
  intro a b h
  have hd := congrArg String.data h
  rw [intRepr_data, intRepr_data] at hd
  split at hd <;> split at hd <;> rename_i ha hb
  · have : natRepr a.natAbs = natRepr b.natAbs :=
      String.ext (List.cons_injective hd)
    have := natRepr_inj _ _ this
    omega
  · exfalso
    have hmem : '-' ∈ (natRepr b.natAbs).data := by
      rw [← hd]
      simp
    exact natRepr_no_minus b.natAbs '-' hmem rfl
  · exfalso
    have hmem : '-' ∈ (natRepr a.natAbs).data := by
      rw [hd]
      simp
    exact natRepr_no_minus a.natAbs '-' hmem rfl
  · have := natRepr_inj _ _ (String.ext hd)
    omega

/-- goJoin computed on the underlying character lists. -/
theorem goJoin_data (sep : String) (l : List String) :
    (goJoin sep l).data = charJoin sep.data (l.map String.data) := by
  induction l with
  | nil => rfl
  | cons x xs ih =>
    cases xs with
    | nil => rfl
    | cons y ys =>
      simp only [goJoin, charJoin, List.map_cons]
      rw [List.map_cons] at ih
      rw [← ih]
      rfl

/-- Splitting at the first space: when x and y are space-free,
x ++ space :: a = y ++ space :: b forces x = y and a = b. -/
theorem split_at_space (x : List Char) : ∀ (y a b : List Char),
    (∀ c ∈ x, c ≠ ' ') → (∀ c ∈ y, c ≠ ' ') →
    x ++ ' ' :: a = y ++ ' ' :: b → x = y ∧ a = b := by
  induction x with
  | nil =>
    intro y a b _ hy h
    cases y with
    | nil => simpa using h
    | cons d y2 =>
      simp only [List.nil_append, List.cons_append, List.cons.injEq] at h
      exact absurd h.1.symm (hy d (by simp))
  | cons c x2 ih =>
    intro y a b hx hy h
    cases y with
    | nil =>
      simp only [List.nil_append, List.cons_append, List.cons.injEq] at h
      exact absurd h.1 (hx c (by simp))
    | cons d y2 =>
      simp only [List.cons_append, List.cons.injEq] at h
      obtain ⟨he, hr⟩ := h
      obtain ⟨h1, h2⟩ := ih y2 a b (fun e he2 => hx e (by simp [he2]))
        (fun e he2 => hy e (by simp [he2])) hr
      exact ⟨by rw [he, h1], h2⟩

/-- charJoin of a non-empty list of non-empty pieces is non-empty. -/
theorem charJoin_cons_ne_nil (y : List Char) (ys : List (List Char))
    (hy : y ≠ []) : charJoin [' '] (y :: ys) ≠ [] := by
  cases ys with
  | nil => exact hy
  | cons y2 ys2 =>
    simp only [charJoin]
    intro h
    rcases List.append_eq_nil.mp h with ⟨h1, _⟩
    rcases List.append_eq_nil.mp h1 with ⟨h2, _⟩
    exact hy h2

/-- The space-join of non-empty space-free pieces is injective. -/
theorem charJoin_inj (xs : List (List Char)) : ∀ (ys : List (List Char)),
    (∀ x ∈ xs, x ≠ [] ∧ ∀ c ∈ x, c ≠ ' ') →
    (∀ y ∈ ys, y ≠ [] ∧ ∀ c ∈ y, c ≠ ' ') →
    charJoin [' '] xs = charJoin [' '] ys → xs = ys := by
  induction xs with
  | nil =>
    intro ys _ hy h
    cases ys with
    | nil => rfl
    | cons y ys2 =>
      exact absurd h.symm (charJoin_cons_ne_nil y ys2 (hy y (by simp)).1)
  | cons x xs2 ih =>
    intro ys hx hy h
    cases ys with
    | nil =>
      exact absurd h (charJoin_cons_ne_nil x xs2 (hx x (by simp)).1)
    | cons y ys2 =>
      cases xs2 with
      | nil =>
        cases ys2 with
        | nil => rw [show (x : List Char) = y from h]
        | cons y2 ys3 =>
          exfalso
          simp only [charJoin] at h
          have hsp : ' ' ∈ x := by
            rw [h, List.append_assoc]
            exact List.mem_append_right _ (by simp)
          exact (hx x (by simp)).2 ' ' hsp rfl
      | cons x2 xs3 =>
        cases ys2 with
        | nil =>
          exfalso
          simp only [charJoin] at h
          have hsp : ' ' ∈ y := by
            rw [← h, List.append_assoc]
            exact List.mem_append_right _ (by simp)
          exact (hy y (by simp)).2 ' ' hsp rfl
        | cons y2 ys3 =>
          simp only [charJoin] at h
          rw [List.append_assoc, List.append_assoc] at h
          simp only [List.singleton_append] at h
          obtain ⟨h1, h2⟩ := split_at_space x y _ _
            (hx x (by simp)).2 (hy y (by simp)).2 h
          have := ih (y2 :: ys3)
            (fun e he => hx e (by simp [he]))
            (fun e he => hy e (by simp [he])) h2
          rw [h1, this]

/-- charJoin distributes over append of non-empty lists. -/
theorem charJoin_append (a : List (List Char)) : ∀ (b : List (List Char)),
    a ≠ [] → b ≠ [] →
    charJoin [' '] (a ++ b)
      = charJoin [' '] a ++ ' ' :: charJoin [' '] b := by
  induction a with
  | nil => intro b h; exact absurd rfl h
  | cons x a2 ih =>
    intro b _ hb
    cases a2 with
    | nil =>
      cases b with
      | nil => exact absurd rfl hb
      | cons y b2 =>
        simp only [List.singleton_append, charJoin, List.append_assoc,
          List.singleton_append]
    | cons x2 a3 =>
      have ha2 : (x2 :: a3 : List (List Char)) ≠ [] := by simp
      have h1 : ((x :: x2 :: a3 : List (List Char)) ++ b)
          = x :: ((x2 :: a3) ++ b) := rfl
      rw [h1]
      have h2 : ((x2 :: a3 : List (List Char)) ++ b)
          = x2 :: (a3 ++ b) := rfl
      have hne : (x2 :: (a3 ++ b) : List (List Char)) ≠ [] := by simp
      show charJoin [' '] (x :: ((x2 :: a3) ++ b)) = _
      rw [h2]
      simp only [charJoin]
      rw [show (x2 :: (a3 ++ b) : List (List Char)) = (x2 :: a3) ++ b from rfl]
      rw [ih b ha2 hb]
      simp [List.append_assoc]

/-- A non-empty list of non-empty lists flattens to a non-empty list. -/
theorem flatten_ne_nil {α : Type} (l : List (List α)) (h : l ≠ [])
    (h2 : ∀ x ∈ l, x ≠ []) : l.flatten ≠ [] := by
  cases l with
  | nil => exact absurd rfl h
  | cons y rest =>
    simp only [List.flatten_cons]
    intro hc
    rcases List.append_eq_nil.mp hc with ⟨h3, _⟩
    exact h2 y (by simp) h3

/-- Joining pre-joined groups equals joining the flattened list, when
every group is non-empty. -/
theorem charJoin_flatten (l : List (List (List Char)))
    (h : ∀ x ∈ l, x ≠ []) :
    charJoin [' '] (l.map (charJoin [' ']))
      = charJoin [' '] l.flatten := by
  induction l with
  | nil => rfl
  | cons x l2 ih =>
    cases l2 with
    | nil => simp [charJoin]
    | cons y l3 =>
      have hx : x ≠ [] := h x (by simp)
      have hfl : (y :: l3 : List (List (List Char))).flatten ≠ [] :=
        flatten_ne_nil _ (by simp) (fun e he => h e (by simp [he]))
      simp only [List.map_cons, List.flatten_cons]
      have hmapne : ((y :: l3).map (charJoin [' '])) ≠ [] := by simp
      show charJoin [' ']
          (charJoin [' '] x :: (y :: l3).map (charJoin [' '])) = _
      have hstep : charJoin [' ']
          (charJoin [' '] x :: (y :: l3).map (charJoin [' ']))
          = charJoin [' '] x ++ ' ' ::
            charJoin [' '] ((y :: l3).map (charJoin [' '])) := by
        simp only [List.map_cons, charJoin]
        simp [List.append_assoc]
      rw [hstep, ih (fun e he => h e (by simp [he]))]
      rw [← List.flatten_cons]
      exact (charJoin_append x ((y :: l3).flatten) hx hfl).symm

/-- Flattened images of equal outer shape and blockwise equal lengths
are equal exactly blockwise. -/
theorem flatten_map_inj {α β : Type} (l : List α) (f g : α → List β)
    (hlen : ∀ a ∈ l, (f a).length = (g a).length)
    (h : (l.map f).flatten = (l.map g).flatten) :
    ∀ a ∈ l, f a = g a := by
  induction l with
  | nil => intro a ha; cases ha
  | cons a l2 ih =>
    simp only [List.map_cons, List.flatten_cons] at h
    obtain ⟨h1, h2⟩ := List.append_inj h (hlen a (by simp))
    intro e he
    rcases List.mem_cons.mp he with rfl | he2
    · exact h1
    · exact ih (fun a2 ha2 => hlen a2 (by simp [ha2])) h2 e he2

/-- The characters of one column n-gram string. -/
theorem columnNgramNumeric_data (c : NgramCounter) (col : Nat) :
    (c.columnNgramNumeric col).data
      = charJoin [' '] (c.tokens.map fun v => (intRepr (v.getD col 0)).data) := by
  unfold NgramCounter.columnNgramNumeric
  rw [goJoin_data, List.map_map]
  rfl

/-- The characters of the full n-gram key. -/
theorem uniqueID_data (c : NgramCounter) (columns : List Nat) :
    (c.UniqueID columns).data
      = charJoin [' ']
          (columns.map fun col =>
            charJoin [' ']
              (c.tokens.map fun v => (intRepr (v.getD col 0)).data)) := by
  unfold NgramCounter.UniqueID
  rw [goJoin_data, List.map_map]
  congr 1
  apply List.map_congr_left
  intro col _
  exact columnNgramNumeric_data c col

/-- C3: two n-grams of the same length produce the same UniqueID over
the same configured column list exactly when their per-column
dictionary-id sequences are pointwise equal; in particular distinct
n-grams never collide on the key. -/
theorem uniqueID_pointwise (c1 c2 : NgramCounter) (columns : List Nat)
    (n : Nat) (hn : 0 < n) (h1 : c1.tokens.length = n)
    (h2 : c2.tokens.length = n) :
    c1.UniqueID columns = c2.UniqueID columns ↔
      ∀ col ∈ columns,
        c1.tokens.map (fun v => v.getD col 0)
          = c2.tokens.map (fun v => v.getD col 0) := by
  have htok1 : c1.tokens ≠ [] := by
    intro habs
    rw [habs] at h1
    simp at h1
    omega
  have htok2 : c2.tokens ≠ [] := by
    intro habs
    rw [habs] at h2
    simp at h2
    omega
  constructor
  · intro h
    have hd := congrArg String.data h
    rw [uniqueID_data, uniqueID_data] at hd
    have hre1 : (columns.map fun col =>
        charJoin [' '] (c1.tokens.map fun v => (intRepr (v.getD col 0)).data))
        = (columns.map fun col =>
            c1.tokens.map fun v => (intRepr (v.getD col 0)).data).map
          (charJoin [' ']) := by
      rw [List.map_map]
      rfl
    have hre2 : (columns.map fun col =>
        charJoin [' '] (c2.tokens.map fun v => (intRepr (v.getD col 0)).data))
        = (columns.map fun col =>
            c2.tokens.map fun v => (intRepr (v.getD col 0)).data).map
          (charJoin [' ']) := by
      rw [List.map_map]
      rfl
    rw [hre1, hre2] at hd
    have hb1 : ∀ x ∈ (columns.map fun col =>
        c1.tokens.map fun v => (intRepr (v.getD col 0)).data), x ≠ [] := by
      intro x hx
      simp only [List.mem_map] at hx
      obtain ⟨col, _, rfl⟩ := hx
      simp [List.map_eq_nil_iff, htok1]
    have hb2 : ∀ x ∈ (columns.map fun col =>
        c2.tokens.map fun v => (intRepr (v.getD col 0)).data), x ≠ [] := by
      intro x hx
      simp only [List.mem_map] at hx
      obtain ⟨col, _, rfl⟩ := hx
      simp [List.map_eq_nil_iff, htok2]
    rw [charJoin_flatten _ hb1, charJoin_flatten _ hb2] at hd
    have hfree1 : ∀ x ∈ (columns.map fun col =>
        c1.tokens.map fun v => (intRepr (v.getD col 0)).data).flatten,
        x ≠ [] ∧ ∀ c ∈ x, c ≠ ' ' := by
      intro x hx
      simp only [List.mem_flatten, List.mem_map] at hx
      obtain ⟨l, ⟨col, _, rfl⟩, hxl⟩ := hx
      simp only [List.mem_map] at hxl
      obtain ⟨v, _, rfl⟩ := hxl
      exact ⟨intRepr_data_ne_nil _, intRepr_space_free _⟩
    have hfree2 : ∀ x ∈ (columns.map fun col =>
        c2.tokens.map fun v => (intRepr (v.getD col 0)).data).flatten,
        x ≠ [] ∧ ∀ c ∈ x, c ≠ ' ' := by
      intro x hx
      simp only [List.mem_flatten, List.mem_map] at hx
      obtain ⟨l, ⟨col, _, rfl⟩, hxl⟩ := hx
      simp only [List.mem_map] at hxl
      obtain ⟨v, _, rfl⟩ := hxl
      exact ⟨intRepr_data_ne_nil _, intRepr_space_free _⟩
    have hflat := charJoin_inj _ _ hfree1 hfree2 hd
    have hlen : ∀ col ∈ columns,
        (c1.tokens.map fun v => (intRepr (v.getD col 0)).data).length
          = (c2.tokens.map fun v => (intRepr (v.getD col 0)).data).length := by
      intro col _
      simp [h1, h2]
    have hcols := flatten_map_inj columns _ _ hlen hflat
    intro col hcol
    have hblock := hcols col hcol
    have hinj : Function.Injective (fun z : Int => (intRepr z).data) := by
      intro a b hab
      exact intRepr_inj (String.ext hab)
    have hmm : (c1.tokens.map (fun v => v.getD col 0)).map
          (fun z => (intRepr z).data)
        = (c2.tokens.map (fun v => v.getD col 0)).map
          (fun z => (intRepr z).data) := by
      rw [List.map_map, List.map_map]
      exact hblock
    exact List.map_injective_iff.mpr hinj hmm
  · intro hp
    unfold NgramCounter.UniqueID
    congr 1
    apply List.map_congr_left
    intro col hcol
    unfold NgramCounter.columnNgramNumeric
    congr 1
    calc c1.tokens.map (fun v => intRepr (v.getD col 0))
        = (c1.tokens.map (fun v => v.getD col 0)).map intRepr := by
          rw [List.map_map]
          rfl
      _ = (c2.tokens.map (fun v => v.getD col 0)).map intRepr := by
          rw [hp col hcol]
      _ = c2.tokens.map (fun v => intRepr (v.getD col 0)) := by
          rw [List.map_map]
          rfl

/-- Witness for uniqueID_pointwise: concrete bigrams over column 0
with ids (1,2) and (1,3). -/
theorem uniqueID_pointwise_witness :
    0 < 2 ∧ (⟨1, [[1], [2]], none⟩ : NgramCounter).tokens.length = 2 ∧
    (⟨1, [[1], [3]], none⟩ : NgramCounter).tokens.length = 2 ∧
    (NgramCounter.UniqueID ⟨1, [[1], [2]], none⟩ [0]
        = NgramCounter.UniqueID ⟨1, [[1], [3]], none⟩ [0] ↔
      ∀ col ∈ [0],
        (⟨1, [[1], [2]], none⟩ : NgramCounter).tokens.map
            (fun v => v.getD col 0)
          = (⟨1, [[1], [3]], none⟩ : NgramCounter).tokens.map
            (fun v => v.getD col 0)) :=
  ⟨by decide, by decide, by decide,
   uniqueID_pointwise ⟨1, [[1], [2]], none⟩ ⟨1, [[1], [3]], none⟩ [0] 2
     (by decide) (by decide) (by decide)⟩

/-- afterProcError keeps accumulator, last atom-open line and insert
log unchanged when it lets the parse continue. -/
theorem afterProcError_ok_proj (conf : TTConf) (st : TTState) (line : Int)
    (e : ProcError) (st2 : TTState)
    (h : afterProcError conf st line e = .ok st2) :
    refProj st2 = refProj st := by
  unfold afterProcError handleProcError at h
  dsimp only at h
  split at h
  · cases h
  · cases h
    rfl

/-- finishStatus keeps accumulator, last atom-open line and insert log
unchanged. -/
theorem finishStatus_ok_proj (st : TTState) (line : Int) (st2 : TTState)
    (h : finishStatus st line = .ok st2) : refProj st2 = refProj st := by
  unfold finishStatus at h
  cases h
  unfold refProj pushStatus
  split <;> rfl

/-- ProcToken does not move the row-emission projection. -/
theorem procToken_proj (conf : TTConf) (st : TTState) (cols : List String)
    (idx line : Int) (st2 : TTState)
    (h : procToken conf st cols idx line = .ok st2) :
    refProj st2 = refProj st := by
  unfold procToken at h
  have h2 := finishStatus_ok_proj _ _ _ h
  rw [h2]
  unfold refProj
  dsimp only
  split
  · split
    · split <;> rfl
    · rfl
  · rfl

/-- The open-event bookkeeping records the atom opening line and
touches neither the accumulator nor the insert log. -/
theorem procStructBookkeep_proj (conf : TTConf) (st : TTState)
    (v : VStructure) (line : Int) (st2 : TTState)
    (h : procStructBookkeep conf st v line = .ok st2) :
    refProj st2 = if v.name = conf.atomStruct
      then ⟨st.accum, line, st.inserts.length⟩
      else refProj st := by
  unfold procStructBookkeep at h
  dsimp only at h
  split at h
  · rename_i hname
    rw [if_pos hname]
    split at h
    · exact (finishStatus_ok_proj _ _ _ h).trans rfl
    · split at h
      · exact (finishStatus_ok_proj _ _ _ h).trans rfl
      · exact (afterProcError_ok_proj _ _ _ _ _ h).trans rfl
      · cases h
  · rename_i hname
    rw [if_neg hname]
    split at h
    · split at h
      · exact (finishStatus_ok_proj _ _ _ h).trans rfl
      · split at h
        · exact (finishStatus_ok_proj _ _ _ h).trans rfl
        · exact (afterProcError_ok_proj _ _ _ _ _ h).trans rfl
        · cases h
    · exact (finishStatus_ok_proj _ _ _ h).trans rfl

/-- ProcStruct moves the projection exactly as the reference machine
prescribes for an open event. -/
theorem procStructOpen_proj (conf : TTConf) (st : TTState) (v : VStructure)
    (line : Int) (st2 : TTState)
    (h : procStructOpen conf st v line = .ok st2) :
    refProj st2 = refStep conf (refProj st) line ⟨.structOpen v, none⟩ := by
  unfold procStructOpen at h
  unfold refStep
  dsimp only at h
  dsimp only [refProj]
  rcases hb : st.accum.beginA line v with ⟨e, ac2⟩
  try rw [hb] at h
  try rw [hb]
  try dsimp only at h
  try dsimp only
  cases e with
  | some er =>
    try dsimp only at h ⊢
    exact (afterProcError_ok_proj _ _ _ _ _ h).trans rfl
  | none =>
    try dsimp only at h ⊢
    split at h
    · rename_i hemp
      rw [if_pos hemp]
      rcases he : ac2.endA v.name with ⟨r, ac3⟩
      try rw [he] at h
      try rw [he]
      try dsimp only at h
      try dsimp only
      cases r with
      | ok item =>
        try dsimp only at h ⊢
        have h2 := procStructBookkeep_proj _ _ _ _ _ h
        unfold refProj at h2
        rw [h2]
      | err er =>
        try dsimp only at h ⊢
        exact (afterProcError_ok_proj _ _ _ _ _ h).trans rfl
      | panic => cases h
    · rename_i hemp
      rw [if_neg hemp]
      have h2 := procStructBookkeep_proj _ _ _ _ _ h
      unfold refProj at h2
      rw [h2]

/-- ProcStructClose moves the projection exactly as the reference
machine prescribes for a close event: one extra row exactly when the
emission condition holds. -/
theorem procStructClose_proj (conf : TTConf) (st : TTState) (name : String)
    (line : Int) (st2 : TTState)
    (h : procStructClose conf st name line = .ok st2) :
    refProj st2 = refStep conf (refProj st) line ⟨.structClose name, none⟩ := by
  unfold procStructClose at h
  unfold refStep
  dsimp only at h
  dsimp only [refProj]
  rcases he : st.accum.endA name with ⟨r, ac2⟩
  try rw [he] at h
  try rw [he]
  try dsimp only at h
  try dsimp only
  cases r with
  | err er =>
    try dsimp only at h
    exact (afterProcError_ok_proj _ _ _ _ _ h).trans rfl
  | panic => cases h
  | ok item =>
    try dsimp only at h
    try dsimp only
    split at h
    · rename_i hemit
      rw [if_pos hemit]
      split at h
      · cases h
      · have h2 := finishStatus_ok_proj _ _ _ h
        unfold refProj at h2
        rw [h2]
        simp
    · rename_i hemit
      rw [if_neg hemit]
      exact (finishStatus_ok_proj _ _ _ h).trans rfl

/-- Each successful driver callback moves the emission projection
exactly as the reference machine does. -/
theorem procLine_proj (conf : TTConf) (st : TTState) (line : Int)
    (li : LineInput) (st2 : TTState)
    (h : procLine conf st line li = .ok st2) :
    refProj st2 = refStep conf (refProj st) line li := by
  obtain ⟨ev, perr⟩ := li
  cases perr with
  | some m =>
    unfold procLine at h
    unfold refStep
    dsimp only at h ⊢
    exact (afterProcError_ok_proj _ _ _ _ _ h).trans rfl
  | none =>
    cases ev with
    | token cols idx =>
      unfold procLine at h
      unfold refStep
      dsimp only at h ⊢
      exact (procToken_proj _ _ _ _ _ _ h).trans rfl
    | structOpen v =>
      unfold procLine at h
      exact procStructOpen_proj _ _ _ _ _ h
    | structClose nm =>
      unfold procLine at h
      exact procStructClose_proj _ _ _ _ _ h

/-- A completed run moves the projection along the whole reference
fold. -/
theorem runFrom_proj (conf : TTConf) (evs : List LineInput) :
    ∀ (st : TTState) (line : Int) (st2 : TTState),
    runFrom conf st line evs = .ok st2 →
    refProj st2 = runRefFrom conf (refProj st) line evs := by
  induction evs with
  | nil =>
    intro st line st2 h
    unfold runFrom at h
    cases h
    rfl
  | cons li rest ih =>
    intro st line st2 h
    unfold runFrom at h
    cases hp : procLine conf st line li with
    | ok stm =>
      rw [hp] at h
      dsimp only at h
      unfold runRefFrom
      rw [← procLine_proj conf st line li stm hp]
      exact ih stm (line + 1) st2 h
    | fatal stm m =>
      rw [hp] at h
      cases h
    | panicked stm =>
      rw [hp] at h
      cases h

/-- C1 (amended): when the driver processes a stream to completion
without a fatal error, the number of liveattrs rows inserted equals the
count of the reference machine: one row per successfully closed atom
structure plus one per successfully closed atom-parent structure whose
opening was not followed, before its closing, by any atom-structure
opening (the driver condition last_atom_open_line < atom_parent's open
line); in particular no row is produced for unclosed atoms. -/
theorem atom_row_emission (conf : TTConf) (evs : List LineInput)
    (st : TTState) (h : runEvents conf evs = .ok st) :
    st.inserts.length = (runRef conf evs).rows := by
  have hmain := runFrom_proj conf evs (initTTState conf) 0 st h
  have hinit : refProj (initTTState conf) = initRefState conf := rfl
  rw [hinit] at hmain
  exact congrArg RefState.rows hmain

/-- Witness for atom_row_emission: the S5 run completes and its two
inserted rows match the reference count. -/
theorem atom_row_emission_witness :
    runEvents c2Conf c2Events
      = .ok (match runEvents c2Conf c2Events with
             | .ok st => st
             | _ => initTTState c2Conf) ∧
    (match runEvents c2Conf c2Events with
     | .ok st => st
     | _ => initTTState c2Conf).inserts.length = (runRef c2Conf c2Events).rows :=
  ⟨rfl, atom_row_emission c2Conf c2Events _ rfl⟩

/-- C1 counterexample: on the stream open(doc), open(p), close(doc)
with atom p and atom-parent doc, the driver completes with zero rows,
while the claim's reading (one row for the parent because no atom
closure occurred since its opening) predicts one row; the claim's
row-count equality is false for this stream. -/
theorem atom_row_count_counterexample :
    (match runEvents c1Conf c1Events with
     | .ok st => some st.inserts.length
     | _ => none) = some 0 ∧
    (runClaim c1Conf c1Events).rows = 1 ∧
    ¬ (∀ (conf : TTConf) (evs : List LineInput) (st : TTState),
        runEvents conf evs = .ok st →
        st.inserts.length = (runClaim conf evs).rows) := by
  refine ⟨rfl, rfl, ?_⟩
  intro hall
  have h1 : (match runEvents c1Conf c1Events with
     | .ok st => some st.inserts.length
     | _ => none) = some 0 := rfl
  cases hrun : runEvents c1Conf c1Events with
  | ok st =>
    have h3 := hall c1Conf c1Events st hrun
    rw [hrun] at h1
    simp only [Option.some.injEq] at h1
    rw [h1] at h3
    have h2 : (runClaim c1Conf c1Events).rows = 1 := rfl
    rw [h2] at h3
    cases h3
  | fatal stx m =>
    rw [hrun] at h1
    cases h1
  | panicked stx =>
    rw [hrun] at h1
    cases h1
